import Mathlib

/-!
Verification development for the sandboxed code-execution subsystem of the
`cloudflare-mcp` worker (source: `src/agent.ts` / the cached executor module
holding `simpleHash`, `WorkerCache`, `createCodeExecutor` and
`createSearchExecutor`).

The embedding mirrors the TypeScript source:

* `WorkerCache<T>` (a JS `Map`-backed LRU) is modelled as an association list
  `List (String × α)`; JS `Map` iteration order is insertion order, and the
  delete-then-set idiom used by the source moves an entry to the back, so the
  front of the list is the least-recently-used entry and the back is the
  most-recently-used one.  A `Map` never holds two entries with the same key,
  so on every representable state removing "the" entry for a key coincides
  with filtering all entries with that key.
* JS 32-bit signed integer coercions (`<< 5`, `& `) are modelled with `Int`
  arithmetic and an explicit wrap into `[-2^31, 2^31)`.
* The `while` loop of `WorkerCache.set` does not terminate when `maxSize = 0`
  (deleting from an empty map is skipped but the guard stays true), so the
  eviction loop and every operation built on it return an `Option`, `none`
  standing for divergence.
-/

namespace CloudflareMcp

/-! ## LRU `WorkerCache` (class `WorkerCache<T>`) -/

/-- Model of `Map.delete(key)`: drop the entry stored under `k` (at most one exists in
any state reachable through `Map` operations). -/
def eraseKey (k : String) (c : List (String × α)) : List (String × α) :=
  c.filter (fun p => p.1 != k)

/-- Model of `WorkerCache.get`: look the key up; on a hit, delete and re-insert the
entry, which moves it to the back (most-recently-used).  Returns the value
found together with the updated recency state. -/
def getOp (k : String) (c : List (String × α)) : Option α × List (String × α) :=
  match List.lookup k c with
  | none => (none, c)
  | some v => (some v, eraseKey k c ++ [(k, v)])

/-- The `while (this.cache.size >= this.maxSize)` eviction loop of
`WorkerCache.set`: repeatedly delete the first (= least-recently-used) entry.
When the cache is empty and `maxSize = 0` the JS loop never exits (the
`oldestKey !== undefined` guard skips the delete but the loop condition stays
true); that case is `none`. -/
def evictLoop (m : Nat) : List (String × α) → Option (List (String × α))
  | [] => if m = 0 then none else some []
  | x :: xs => if m ≤ xs.length + 1 then evictLoop m xs else some (x :: xs)

/-- Model of `WorkerCache.set`: delete the key if present, evict (from the least
recently used end) while at capacity, then insert at the back. -/
def setOp (m : Nat) (k : String) (v : α) (c : List (String × α)) :
    Option (List (String × α)) :=
  match evictLoop m (eraseKey k c) with
  | none => none
  | some c' => some (c' ++ [(k, v)])

/-- One interleaved client operation on a `WorkerCache`. -/
inductive CacheOp (α : Type) where
  | get (k : String)
  | set (k : String) (v : α)

/-- Apply a single cache operation (the value returned by `get` is discarded;
only the state evolution matters for the cache invariants). -/
def applyOp (m : Nat) (c : List (String × α)) : CacheOp α → Option (List (String × α))
  | .get k => some (getOp k c).2
  | .set k v => setOp m k v c

/-- Run a finite sequence of interleaved `get`/`set` operations from state
`c`; `none` if some `set` diverges (only possible for `m = 0`). -/
def runOps (m : Nat) (ops : List (CacheOp α)) (c : List (String × α)) :
    Option (List (String × α)) :=
  match ops with
  | [] => some c
  | op :: rest =>
    match applyOp m c op with
    | none => none
    | some c' => runOps m rest c'

/-! ## `simpleHash` -/

/-- Wrap an integer into the 32-bit signed range, the effect of JS `x & x`
(and of the implicit `ToInt32` in `x << 5`). -/
def toInt32 (x : Int) : Int :=
  (x + 2 ^ 31) % 2 ^ 32 - 2 ^ 31

/-- The accumulator of `simpleHash`:
`hash = ((hash << 5) - hash) + char; hash = hash & hash` per character.
`hash << 5` coerces to 32-bit before shifting, hence the inner `toInt32`. -/
def hashVal (str : String) : Int :=
  str.data.foldl (fun h c => toInt32 (toInt32 (h * 32) - h + c.toNat)) 0

/-- Digit character for base-36 rendering: `0`-`9` then `a`-`z`, as produced
by JS `Number.prototype.toString(36)`. -/
def base36DigitChar (d : Nat) : Char :=
  if d < 10 then Char.ofNat (48 + d) else Char.ofNat (87 + d)

/-- Fuel-indexed base-36 digit expansion (structural recursion so that it
evaluates inside the kernel; fuel `n + 1` always suffices). -/
def natToBase36Aux : Nat → Nat → List Char
  | 0, _ => []
  | fuel + 1, n =>
    if n < 36 then [base36DigitChar n]
    else natToBase36Aux fuel (n / 36) ++ [base36DigitChar (n % 36)]

/-- Base-36 rendering of a natural number. -/
def natToBase36 (n : Nat) : String :=
  String.mk (natToBase36Aux (n + 1) n)

/-- JS `v.toString(36)` for a 32-bit signed value: minus sign then the
base-36 digits of the absolute value. -/
def int32ToBase36 (v : Int) : String :=
  if v < 0 then "-" ++ natToBase36 v.natAbs else natToBase36 v.toNat

/-- Model of `simpleHash`: fold the 32-bit rolling hash over the characters, then
render the final value in base 36. -/
def simpleHash (str : String) : String :=
  int32ToBase36 (hashVal str)

/-- The derived cache key of `createCodeExecutor`:
`` `${accountId}:${codeHash}` ``. -/
def cacheKey (accountId code : String) : String :=
  accountId ++ ":" ++ simpleHash code

/-! ## The sandbox definition template of `createCodeExecutor`

The worker module source is a fixed template with `JSON.stringify(apiBase)`
and `JSON.stringify(accountId)` embedded as serialized literals and the
code of the caller embedded verbatim at `(${code})()`.  Literal braces of the
JS source are written `\x7b` / `\x7d` below. -/

/-- Two lowercase hex digits, as used by `JSON.stringify` for control
characters (`\u00XX`). -/
def twoHexDigits (n : Nat) : String :=
  let hexChar : Nat → Char := fun d =>
    if d < 10 then Char.ofNat (48 + d) else Char.ofNat (87 + d)
  String.mk [hexChar (n / 16 % 16), hexChar (n % 16)]

/-- One character of a string value escaped the way `JSON.stringify` does. -/
def jsonEscapeChar (c : Char) : String :=
  if c = '"' then "\\\""
  else if c = '\\' then "\\\\"
  else if c = '\n' then "\\n"
  else if c = '\r' then "\\r"
  else if c = '\t' then "\\t"
  else if c = Char.ofNat 8 then "\\b"
  else if c = Char.ofNat 12 then "\\f"
  else if c.toNat < 32 then "\\u00" ++ twoHexDigits c.toNat
  else String.mk [c]

/-- Model of `JSON.stringify` applied to a string value: double quotes around
the escaped characters. -/
def jsonStringify (s : String) : String :=
  "\"" ++ String.join (s.data.map jsonEscapeChar) ++ "\""

/-- The `worker.js` module text built by `createCodeExecutor`.  `apiToken` is
in scope in the enclosing closure of the source but is never interpolated
into the template; it is kept as a parameter here precisely so that this
independence is a statement and not a syntactic accident. -/
def buildWorkerCode (apiBase accountId apiToken code : String) : String :=
  String.intercalate "\n" [
    "",
    "import \x7b WorkerEntrypoint \x7d from \"cloudflare:workers\";",
    "",
    "const apiBase = " ++ jsonStringify apiBase ++ ";",
    "const accountId = " ++ jsonStringify accountId ++ ";",
    "",
    "export default class CodeExecutor extends WorkerEntrypoint \x7b",
    "  async evaluate(apiToken) \x7b",
    "    const cloudflare = \x7b",
    "      async request(options) \x7b",
    "        const \x7b method, path, query, body, contentType, rawBody \x7d = options;",
    "",
    "        const url = new URL(apiBase + path);",
    "        if (query) \x7b",
    "          for (const [key, value] of Object.entries(query)) \x7b",
    "            if (value !== undefined) \x7b",
    "              url.searchParams.set(key, String(value));",
    "            \x7d",
    "          \x7d",
    "        \x7d",
    "",
    "        const headers = \x7b",
    "          \"Authorization\": \"Bearer \" + apiToken,",
    "        \x7d;",
    "",
    "        if (contentType) \x7b",
    "          headers[\"Content-Type\"] = contentType;",
    "        \x7d else if (body && !rawBody) \x7b",
    "          headers[\"Content-Type\"] = \"application/json\";",
    "        \x7d",
    "",
    "        let requestBody;",
    "        if (rawBody) \x7b",
    "          requestBody = body;",
    "        \x7d else if (body) \x7b",
    "          requestBody = JSON.stringify(body);",
    "        \x7d",
    "",
    "        const response = await fetch(url.toString(), \x7b",
    "          method,",
    "          headers,",
    "          body: requestBody,",
    "        \x7d);",
    "",
    "        const responseContentType = response.headers.get(\"content-type\") || \"\";",
    "",
    "        // Handle non-JSON responses (e.g., KV values)",
    "        if (!responseContentType.includes(\"application/json\")) \x7b",
    "          const text = await response.text();",
    "          if (!response.ok) \x7b",
    "            throw new Error(\"Cloudflare API error: \" + response.status + \" \" + text);",
    "          \x7d",
    "          return \x7b success: true, result: text \x7d;",
    "        \x7d",
    "",
    "        const data = await response.json();",
    "",
    "        if (!data.success) \x7b",
    "          const errors = data.errors.map(e => e.code + \": \" + e.message).join(\", \");",
    "          throw new Error(\"Cloudflare API error: \" + errors);",
    "        \x7d",
    "",
    "        return data;",
    "      \x7d",
    "    \x7d;",
    "",
    "    try \x7b",
    "      const result = await (" ++ code ++ ")();",
    "      return \x7b result, err: undefined \x7d;",
    "    \x7d catch (err) \x7b",
    "      return \x7b result: undefined, err: err.message, stack: err.stack \x7d;",
    "    \x7d",
    "  \x7d",
    "\x7d",
    "        "]

/-! ## Executor step (the async function returned by `createCodeExecutor`) -/

/-- The live sandbox handle returned by `env.LOADER.get`: the hosting
capability identifies a worker by the id it was requested under and (per
§6 of the design, idempotent-by-identity instantiation) serves the module
source supplied at first instantiation. -/
structure Worker where
  id : String
  source : String
deriving DecidableEq, Repr

/-- One execution request processed against the worker cache
(`createCodeExecutor`, body of the returned async function).  `loader`
abstracts `env.LOADER.get`: it may fail (`Except.error`) when the hosting
capability cannot instantiate the sandbox.  The step returns `none` when the
eviction loop of the cache would diverge (impossible at the `maxSize` of 20
used by the source), and otherwise the request outcome — the worker used together with the
credential passed to `evaluate` — and the updated cache. -/
def execStep (loader : String → String → Except String Worker)
    (apiBase code accountId apiToken : String) (st : List (String × Worker)) :
    Option (Except String (Worker × String) × List (String × Worker)) :=
  match getOp (cacheKey accountId code) st with
  | (some w, st') => some (.ok (w, apiToken), st')
  | (none, st') =>
    match loader ("cloudflare-api-" ++ cacheKey accountId code)
        (buildWorkerCode apiBase accountId apiToken code) with
    | .error e => some (.error e, st')
    | .ok w =>
      match setOp 20 (cacheKey accountId code) w st' with
      | none => none
      | some st'' => some (.ok (w, apiToken), st'')

/-- A hosting capability that always instantiates: the handle records the
requested worker id and the module source it was built from. -/
def loaderAlwaysOk : String → String → Except String Worker :=
  fun workerId src => .ok ⟨workerId, src⟩

/-- The worker that `loaderAlwaysOk` builds for a given request. -/
def mkApiWorker (apiBase accountId apiToken code : String) : Worker :=
  ⟨"cloudflare-api-" ++ cacheKey accountId code,
   buildWorkerCode apiBase accountId apiToken code⟩

/-- Two consecutive execution requests (same account and credential) starting
from an empty worker cache, under the always-instantiating host; returns the
sandbox used by each request. -/
def twoRequests (apiBase accountId apiToken code1 code2 : String) :
    Option (Worker × Worker) :=
  match execStep loaderAlwaysOk apiBase code1 accountId apiToken [] with
  | some (.ok (w1, _), st1) =>
    match execStep loaderAlwaysOk apiBase code2 accountId apiToken st1 with
    | some (.ok (w2, _), _) => some (w1, w2)
    | _ => none
  | _ => none

/-! ## The embedded `cloudflare.request` response handling

The `request` function of the template (after the `fetch` resolves) inspects the
upstream response: content type, HTTP status, text body, and — when the
content type is JSON — the parsed envelope. -/

/-- One entry of the `errors` (or `messages`) array of the envelope:
`\x7b code: number; message: string \x7d`. -/
structure CFErrorEntry where
  code : Int
  message : String
deriving DecidableEq, Repr

/-- A structured JSON value as far as this model needs to distinguish it:
a string, or an abstract structured value (identified by a tag). -/
inductive JsonVal where
  | str (s : String)
  | node (tag : Nat)
deriving DecidableEq, Repr

/-- The Cloudflare success envelope
`\x7b success, result, errors, messages \x7d`. -/
structure Envelope where
  success : Bool
  result : JsonVal
  errors : List CFErrorEntry
  messages : List CFErrorEntry
deriving DecidableEq, Repr

/-- The upstream HTTP response as observed by the embedded `request`:
the `content-type` header (`none` when absent, the source defaults it to
`""`), the status code, the text body, and the envelope that
`response.json()` would produce (`none` when the body is not valid JSON, in
which case `response.json()` rejects). -/
structure UpstreamReply where
  contentTypeHeader : Option String
  status : Nat
  textBody : String
  jsonBody : Option Envelope
deriving DecidableEq, Repr

/-- Field `response.ok` of `fetch`: status in the inclusive range 200-299. -/
def respOk (r : UpstreamReply) : Bool :=
  decide (200 ≤ r.status) && decide (r.status < 300)

/-- Does the second list start with the first one? -/
def startsWithList (pat l : List Char) : Bool :=
  match pat, l with
  | [], _ => true
  | _ :: _, [] => false
  | p :: ps, c :: cs => p == c && startsWithList ps cs

/-- Does the list contain the pattern as a contiguous run? -/
def containsSub (pat : List Char) : List Char → Bool
  | [] => pat.isEmpty
  | c :: rest => startsWithList pat (c :: rest) || containsSub pat rest

/-- JS `String.prototype.includes`. -/
def stringIncludes (s pat : String) : Bool :=
  containsSub pat.data s.data

/-- What `cloudflare.request` produces on success: either the raw text
wrapped in a success envelope (`\x7b success: true, result: text \x7d`) or
the full structured envelope. -/
inductive CFOutcome where
  | rawWrapped (text : String)
  | envelope (e : Envelope)
deriving DecidableEq, Repr

/-- A failure escaping `cloudflare.request`: an explicitly thrown
`Error(message)`, or the rejection of `response.json()` on a non-JSON body
served under a JSON content type. -/
inductive JsFault where
  | thrown (message : String)
  | jsonParseError
deriving DecidableEq, Repr

/-- Model of `data.errors.map(e => e.code + ": " + e.message).join(", ")`. -/
def joinErrors (errors : List CFErrorEntry) : String :=
  String.intercalate ", " (errors.map (fun e => toString e.code ++ ": " ++ e.message))

/-- The response handling of the embedded `cloudflare.request` (template
lines after the `fetch`): non-JSON content type → raw text wrapped on a
2xx status, otherwise a thrown error carrying status and text; JSON content
type → a thrown error concatenating the errors of the envelope when its `success`
flag is false, otherwise the full envelope. -/
def cloudflareRequest (r : UpstreamReply) : Except JsFault CFOutcome :=
  let responseContentType := r.contentTypeHeader.getD ""
  if !stringIncludes responseContentType "application/json" then
    if !respOk r then
      .error (.thrown ("Cloudflare API error: " ++ toString r.status ++ " " ++ r.textBody))
    else
      .ok (.rawWrapped r.textBody)
  else
    match r.jsonBody with
    | none => .error .jsonParseError
    | some data =>
      if !data.success then
        .error (.thrown ("Cloudflare API error: " ++ joinErrors data.errors))
      else
        .ok (.envelope data)

/-! ## The execution bridge (the try/catch of `evaluate`) -/

/-- A value thrown by the embedded code — JS allows throwing anything.
Either `null`/`undefined`, on which any property access itself throws, or any
other value, carried here as the values of its `message` and `stack`
properties: a string for `Error` instances (possibly empty), `none` when the
property is absent/undefined, as for `throw 42` or a plain object. -/
inductive JsThrown where
  | nullish
  | value (message : Option String) (stack : Option String)
deriving DecidableEq, Repr

/-- The behaviour of one run of the embedded code `await (code)()` inside the
sandbox: it either completes normally with a value, or a thrown value
propagates out of it (`cloudflare.request` always throws `Error` instances,
but the code itself may throw anything). -/
inductive ExecBehavior where
  | returns (v : JsonVal)
  | throws (e : JsThrown)
deriving DecidableEq, Repr

/-- The structured outcome crossing the isolation boundary:
`\x7b result, err, stack \x7d`. -/
structure EvalOutcome where
  result : Option JsonVal
  err : Option String
  stack : Option String
deriving DecidableEq, Repr

/-- The try/catch of the `evaluate` method of the template: a normal
completion becomes `\x7b result, err: undefined \x7d`; a caught thrown value
becomes `\x7b result: undefined, err: err.message, stack: err.stack \x7d`
with the property values read off the thrown value (absent for e.g. a thrown
number).  When the thrown value is `null` or `undefined`, the `err.message`
access inside the catch block itself throws a `TypeError`, and that failure
escapes `evaluate` uncaught — the `none` case. -/
def evaluate : ExecBehavior → Option EvalOutcome
  | .returns v => some ⟨some v, none, none⟩
  | .throws .nullish => none
  | .throws (.value msg stk) => some ⟨none, msg, stk⟩

/-- The outcome form asserted by the specification (claim C2): an outcome is
produced and is exactly one of `\x7b result present, err absent \x7d` or
`\x7b result absent, err a non-empty message \x7d`.  Stated from the words of
the spec, for comparison with what `evaluate` actually produces. -/
def specClaimedOutcomeForm (o : Option EvalOutcome) : Prop :=
  ∃ out, o = some out ∧
    ((out.result.isSome ∧ out.err = none) ∨
      (out.result = none ∧ ∃ m, out.err = some m ∧ m ≠ ""))

/-! ## Response truncation

Modelled from the spec: `truncateResponse` lives in `src/truncate.ts`, which
is not part of the repository snapshot (only its callers in `src/server.ts`
and the README description "Response truncation (10k token limit)" are).
Per §4.7 of the design: given the serialized form of a successful result, produce
a representation bounded by a budget of 10,000 token-equivalents, indicating
the original size when truncating rather than silently dropping data.  A
token-equivalent is 4 characters, the heuristic the repository itself uses in
`scripts/count-tokens.ts`. -/

/-- The output-size budget, in token-equivalents. -/
def truncationTokenBudget : Nat := 10000

/-- Characters per token-equivalent (`scripts/count-tokens.ts` heuristic). -/
def charsPerToken : Nat := 4

/-- The budget expressed in characters. -/
def charBudget : Nat := truncationTokenBudget * charsPerToken

/-- Token-equivalents of a serialized string (characters over
`charsPerToken`, rounded up). -/
def tokenEquivalents (s : String) : Nat :=
  (s.length + (charsPerToken - 1)) / charsPerToken

/-- Fuel-indexed decimal digit expansion (structural recursion so that it
evaluates inside the kernel; fuel `n + 1` always suffices). -/
def natDecimalAux : Nat → Nat → List Char
  | 0, _ => []
  | fuel + 1, n =>
    if n < 10 then [Char.ofNat (48 + n)]
    else natDecimalAux fuel (n / 10) ++ [Char.ofNat (48 + n % 10)]

/-- Decimal rendering of a natural number. -/
def renderNat (n : Nat) : String :=
  String.mk (natDecimalAux (n + 1) n)

/-- The truncation indicator appended in place of the dropped tail; it
reports the original serialized size. -/
def truncationNote (originalLen : Nat) : String :=
  "... [truncated, original size: " ++ renderNat originalLen ++ " characters]"

/-- Modelled from the spec: `truncateResponse`.  A serialized result within
the budget passes through unchanged; an oversized one is cut so that the kept
prefix plus the indicator of the original size fit the budget exactly. -/
def truncateResponse (s : String) : String :=
  if s.length ≤ charBudget then s
  else
    String.mk (s.data.take (charBudget - (truncationNote s.length).length))
      ++ truncationNote s.length

/-- Boolean equality of character lists, written so that its evaluation is an
iteration (the recursive call sits directly under `&&`), which lets concrete
instances over long template strings be checked by reduction. -/
def eqListTR : List Char → List Char → Bool
  | [], [] => true
  | [], _ :: _ => false
  | _ :: _, [] => false
  | a :: as, b :: bs => a == b && eqListTR as bs

/-! ## Supporting lemmas -/

theorem eqListTR_refl : ∀ l : List Char, eqListTR l l = true := by
  intro l
  induction l with
  | nil => rfl
  | cons a as ih => simp [eqListTR, ih]

theorem eraseKey_length_le (k : String) (c : List (String × α)) :
    (eraseKey k c).length ≤ c.length :=
  List.length_filter_le _ c

theorem eraseKey_length_lt (k : String) (v : α) (c : List (String × α))
    (h : List.lookup k c = some v) : (eraseKey k c).length < c.length := by
  induction c with
  | nil => simp [List.lookup] at h
  | cons p t ih =>
    obtain ⟨a, b⟩ := p
    rw [List.lookup] at h
    by_cases hk : k = a
    · have : (a != k) = false := by simp [bne, hk]
      simp only [eraseKey, List.filter, this]
      exact Nat.lt_succ_of_le (List.length_filter_le _ t)
    · have hbeq : (k == a) = false := by simp [hk]
      rw [hbeq] at h
      have : (a != k) = true := by simp [bne]; exact fun he => hk he.symm
      simp only [eraseKey, List.filter, this, List.length_cons]
      exact Nat.succ_lt_succ (ih h)

theorem eraseKey_not_mem (k : String) (c : List (String × α)) :
    ∀ p ∈ eraseKey k c, p.1 ≠ k := by
  intro p hp
  have := List.of_mem_filter hp
  simpa [bne_iff_ne] using this

theorem eraseKey_eq_self (k : String) (c : List (String × α))
    (h : ∀ p ∈ c, p.1 ≠ k) : eraseKey k c = c := by
  apply List.filter_eq_self.mpr
  intro p hp
  simpa [bne_iff_ne] using h p hp

theorem evictLoop_some_length_lt (m : Nat) (c c' : List (String × α))
    (h : evictLoop m c = some c') : c'.length < m := by
  induction c with
  | nil =>
    rw [evictLoop] at h
    split at h
    · exact absurd h (by simp)
    · obtain rfl : ([] : List (String × α)) = c' := by simpa using h
      simp only [List.length_nil]
      omega
  | cons x xs ih =>
    rw [evictLoop] at h
    split at h
    · exact ih h
    · obtain rfl : x :: xs = c' := by simpa using h
      simp only [List.length_cons]
      omega

theorem evictLoop_eq_drop (m : Nat) (hm : 1 ≤ m) (c : List (String × α)) :
    evictLoop m c = some (c.drop (c.length + 1 - m)) := by
  induction c with
  | nil =>
    rw [evictLoop]
    simp [Nat.pos_iff_ne_zero.mp hm]
  | cons x xs ih =>
    rw [evictLoop]
    by_cases hle : m ≤ xs.length + 1
    · rw [if_pos hle, ih]
      congr 1
      have h1 : (x :: xs).length + 1 - m = (xs.length + 1 - m) + 1 := by
        simp only [List.length_cons]; omega
      rw [h1, List.drop_succ_cons]
    · rw [if_neg hle]
      have : (x :: xs).length + 1 - m = 0 := by
        simp only [List.length_cons]; omega
      rw [this, List.drop_zero]

theorem lookup_append_self (k : String) (v : α) (pre : List (String × α))
    (h : ∀ p ∈ pre, p.1 ≠ k) : List.lookup k (pre ++ [(k, v)]) = some v := by
  induction pre with
  | nil => simp [List.lookup]
  | cons p t ih =>
    obtain ⟨a, b⟩ := p
    have ha : a ≠ k := h (a, b) (by simp)
    have hbeq : (k == a) = false := by
      simp; exact fun he => ha he.symm
    rw [List.cons_append, List.lookup, hbeq]
    exact ih (fun q hq => h q (List.mem_cons_of_mem _ hq))

theorem runOps_length_le (m : Nat) (ops : List (CacheOp α)) :
    ∀ (c₀ : List (String × α)), c₀.length ≤ m →
      ∀ c, runOps m ops c₀ = some c → c.length ≤ m := by
  induction ops with
  | nil =>
    intro c₀ h0 c hc
    obtain rfl : c₀ = c := by simpa [runOps] using hc
    exact h0
  | cons op rest ih =>
    intro c₀ h0 c hc
    rw [runOps] at hc
    match hop : applyOp m c₀ op with
    | none => rw [hop] at hc; exact absurd hc (by simp)
    | some c₁ =>
      rw [hop] at hc
      apply ih c₁ _ c hc
      match op with
      | .get k =>
        have hc₁ : c₁ = (getOp k c₀).2 := by simpa [applyOp] using hop.symm
        rw [hc₁, getOp]
        match hl : List.lookup k c₀ with
        | none => simpa using h0
        | some v =>
          simp only [List.length_append, List.length_cons, List.length_nil]
          have := eraseKey_length_lt k v c₀ hl
          omega
      | .set k v =>
        rw [applyOp, setOp] at hop
        match he : evictLoop m (eraseKey k c₀) with
        | none => rw [he] at hop; exact absurd hop (by simp)
        | some c' =>
          rw [he] at hop
          obtain rfl : c' ++ [(k, v)] = c₁ := by simpa using hop
          have := evictLoop_some_length_lt m _ c' he
          simp only [List.length_append, List.length_cons, List.length_nil]
          omega

/-! ## Claims -/

/-- C3: for every `WorkerCache` maximum size `m` (in particular the
`m = 20` API-execution cache and `m = 5` search-execution cache) and every
finite sequence of interleaved `get`/`set` operations run from the empty
cache, the number of live entries never exceeds `m`.  (Since the sequence is
universally quantified, every intermediate point of a longer run is the final
state of some prefix run, so the bound holds at every point.) -/
theorem cacheSizeBound (α : Type) (m : Nat) (ops : List (CacheOp α))
    (c : List (String × α)) (h : runOps m ops [] = some c) : c.length ≤ m :=
  runOps_length_le m ops [] (by simp) c h

theorem cacheSizeBoundWitness :
    List.length [("b", (2 : Nat)), ("c", 3)] ≤ 2 :=
  cacheSizeBound Nat 2 [.set "a" 1, .set "b" 2, .set "c" 3]
    [("b", 2), ("c", 3)] (by decide)

/-- C4: `set` on a key not currently present evicts exactly the
least-recently-used entries — the front of the recency order — repeatedly
until there is room for exactly one new entry, and inserts the new entry as
most-recently-used (at the back); `get` on a hit promotes the entry to
most-recently-used.  In this model positions reflect recency (front =
least recently accessed by `get` or `set`), so the `drop` prefix removed is
exactly the least-recently-used entries. -/
theorem lruEvictionExact (α : Type) :
    (∀ (m : Nat) (k : String) (v : α) (c : List (String × α)),
        1 ≤ m → (∀ p ∈ c, p.1 ≠ k) →
        setOp m k v c = some (c.drop (c.length + 1 - m) ++ [(k, v)]))
    ∧ (∀ (k : String) (v : α) (c : List (String × α)),
        List.lookup k c = some v →
        getOp k c = (some v, eraseKey k c ++ [(k, v)])) := by
  constructor
  · intro m k v c hm hk
    rw [setOp, eraseKey_eq_self k c hk, evictLoop_eq_drop m hm c]
  · intro k v c h
    rw [getOp, h]

theorem lruEvictionExactWitness :
    setOp 2 "c" (5 : Nat) [("a", 0), ("b", 1)] =
      some ([("a", (0 : Nat)), ("b", 1)].drop ([("a", (0 : Nat)), ("b", 1)].length + 1 - 2)
        ++ [("c", 5)])
    ∧ getOp "a" [("a", (0 : Nat)), ("b", 1)] =
      (some 0, eraseKey "a" [("a", (0 : Nat)), ("b", 1)] ++ [("a", 0)]) :=
  ⟨(lruEvictionExact Nat).1 2 "c" 5 [("a", 0), ("b", 1)] (by decide) (by decide),
   (lruEvictionExact Nat).2 "a" 0 [("a", 0), ("b", 1)] (by decide)⟩

/-- C10: for `m ≥ 1`, `set k v` terminates (the eviction loop only diverges
for `m = 0`), never evicts the key being inserted (no entry of the kept
prefix carries `k`), leaves `k` as the most-recently-used entry (at the
back), and an immediately following `get k` returns `v`. -/
theorem setThenGetRoundtrip (α : Type) (m : Nat) (k : String) (v : α)
    (c : List (String × α)) (hm : 1 ≤ m) :
    ∃ pre, setOp m k v c = some (pre ++ [(k, v)])
      ∧ (∀ p ∈ pre, p.1 ≠ k)
      ∧ (getOp k (pre ++ [(k, v)])).1 = some v := by
  refine ⟨(eraseKey k c).drop ((eraseKey k c).length + 1 - m), ?_, ?_, ?_⟩
  · rw [setOp, evictLoop_eq_drop m hm (eraseKey k c)]
  · intro p hp
    exact eraseKey_not_mem k c p (List.drop_subset _ _ hp)
  · have hpre : ∀ p ∈ (eraseKey k c).drop ((eraseKey k c).length + 1 - m), p.1 ≠ k :=
      fun p hp => eraseKey_not_mem k c p (List.drop_subset _ _ hp)
    rw [getOp, lookup_append_self k v _ hpre]

theorem setThenGetRoundtripWitness :
    ∃ pre, setOp 1 "k" (0 : Nat) [("x", 7)] = some (pre ++ [("k", 0)])
      ∧ (∀ p ∈ pre, p.1 ≠ "k")
      ∧ (getOp "k" (pre ++ [("k", 0)])).1 = some 0 :=
  setThenGetRoundtrip Nat 1 "k" 0 [("x", 7)] (by decide)

theorem toInt32_range (x : Int) : -(2 ^ 31) ≤ toInt32 x ∧ toInt32 x < 2 ^ 31 := by
  unfold toInt32
  constructor
  · have h := Int.emod_nonneg (x + 2 ^ 31) (by norm_num : (2 ^ 32 : Int) ≠ 0)
    omega
  · have h := Int.emod_lt_of_pos (x + 2 ^ 31) (by norm_num : (0 : Int) < 2 ^ 32)
    omega

theorem hashVal_range (s : String) :
    -(2 ^ 31) ≤ hashVal s ∧ hashVal s < 2 ^ 31 := by
  rw [hashVal]
  have step : ∀ (l : List Char) (a : Int),
      -(2 ^ 31) ≤ a ∧ a < 2 ^ 31 →
      -(2 ^ 31) ≤ l.foldl (fun h c => toInt32 (toInt32 (h * 32) - h + c.toNat)) a
        ∧ l.foldl (fun h c => toInt32 (toInt32 (h * 32) - h + c.toNat)) a < 2 ^ 31 := by
    intro l
    induction l with
    | nil => intro a ha; simpa using ha
    | cons c t ih =>
      intro a _
      rw [List.foldl_cons]
      exact ih _ (toInt32_range _)
  exact step s.data 0 (by norm_num)

/-- C9: `simpleHash` is a total function factoring through `hashVal`, whose
value stays inside the 32-bit signed range `[-2^31, 2^31)` (so the image of
`simpleHash` has at most `2^32` elements), and two distinct strings with a
colliding hash exist concretely — `"Aa"` and `"BB"` — giving two distinct
code strings with equal derived cache keys for every account. -/
theorem simpleHashProperties :
    (∀ s : String, simpleHash s = int32ToBase36 (hashVal s))
    ∧ (∀ s : String, -(2 ^ 31) ≤ hashVal s ∧ hashVal s < 2 ^ 31)
    ∧ (("Aa" : String) ≠ "BB"
        ∧ simpleHash "Aa" = simpleHash "BB"
        ∧ ∀ acct : String, cacheKey acct "Aa" = cacheKey acct "BB") := by
  refine ⟨fun s => rfl, hashVal_range, by decide, by decide, fun acct => ?_⟩
  rw [cacheKey, cacheKey, show simpleHash "Aa" = simpleHash "BB" by decide]

/-- C2 (corrected): on normal completion the outcome is
`\x7b result present, err absent \x7d`; a thrown value with a string
`message` property (an `Error`, possibly with an empty message) yields
`\x7b result absent, err that message \x7d`, and a thrown value without one
(e.g. `throw 42`) yields `\x7b result absent, err absent \x7d` — so `result`
and `err` are never both present, but the claimed "never neither" fails; and
a thrown `null` or `undefined` makes the `err.message` access inside the
catch block itself throw, so that failure escapes `evaluate` uncaught. -/
theorem evaluateOutcomeExclusive :
    (∀ v, evaluate (.returns v) = some ⟨some v, none, none⟩)
    ∧ (∀ msg stk, evaluate (.throws (.value msg stk)) = some ⟨none, msg, stk⟩)
    ∧ evaluate (.throws .nullish) = none
    ∧ (∀ b out, evaluate b = some out →
        ¬(out.result.isSome = true ∧ out.err.isSome = true)) := by
  refine ⟨fun v => rfl, fun msg stk => rfl, rfl, ?_⟩
  intro b out h hc
  cases b with
  | returns v =>
    obtain rfl : (⟨some v, none, none⟩ : EvalOutcome) = out := by
      simpa [evaluate] using h
    simp at hc
  | throws e =>
    cases e with
    | nullish => simp [evaluate] at h
    | value msg stk =>
      obtain rfl : (⟨none, msg, stk⟩ : EvalOutcome) = out := by
        simpa [evaluate] using h
      simp at hc

theorem evaluateOutcomeExclusiveWitness :
    ¬((⟨some (JsonVal.str "x"), none, none⟩ : EvalOutcome).result.isSome = true
      ∧ (⟨some (JsonVal.str "x"), none, none⟩ : EvalOutcome).err.isSome = true) :=
  evaluateOutcomeExclusive.2.2.2 (.returns (.str "x"))
    ⟨some (.str "x"), none, none⟩ rfl

/-- C2 counterexample: three concrete thrown values violate the claimed
outcome form.  `Error("")` yields the error form with an empty message;
`throw 42` — a value whose `message` property is undefined — yields
`\x7b result: undefined, err: undefined \x7d`, neither form (and the caller
of `evaluate`, which tests truthiness of `err`, reports it as a success with
an undefined result); `throw null` makes the catch block itself throw, so no
outcome is produced at all and the failure crosses the boundary uncaught. -/
theorem evaluateClaimedFormCex :
    ¬ specClaimedOutcomeForm (evaluate (.throws (.value (some "") (some ""))))
    ∧ ¬ specClaimedOutcomeForm (evaluate (.throws (.value none none)))
    ∧ ¬ specClaimedOutcomeForm (evaluate (.throws .nullish)) := by
  refine ⟨?_, ?_, ?_⟩
  · intro h
    obtain ⟨out, hout, hforms⟩ := h
    obtain rfl : (⟨none, some "", some ""⟩ : EvalOutcome) = out := by
      simpa [evaluate] using hout
    rcases hforms with ⟨h1, _⟩ | ⟨_, m, hm, hne⟩
    · simp at h1
    · have h2 : some ("" : String) = some m := hm
      exact hne (Option.some.inj h2).symm
  · intro h
    obtain ⟨out, hout, hforms⟩ := h
    obtain rfl : (⟨none, none, none⟩ : EvalOutcome) = out := by
      simpa [evaluate] using hout
    rcases hforms with ⟨h1, _⟩ | ⟨_, m, hm, _⟩
    · simp at h1
    · exact Option.noConfusion hm
  · intro h
    obtain ⟨out, hout, _⟩ := h
    exact Option.noConfusion hout

/-- C5: the embedded `cloudflare.request` response handling.  Non-JSON
content type: the raw text wrapped in a success value on a 2xx status,
otherwise a thrown failure carrying the status code and raw text.  JSON
content type with `success: false`: a thrown failure concatenating every
reported error as `"code: message"` joined by `", "`; with `success: true`:
the full structured envelope. -/
theorem cloudflareRequestHandling (r : UpstreamReply) :
    (stringIncludes (r.contentTypeHeader.getD "") "application/json" = false →
        (respOk r = true → cloudflareRequest r = .ok (.rawWrapped r.textBody))
      ∧ (respOk r = false →
          cloudflareRequest r =
            .error (.thrown ("Cloudflare API error: " ++ toString r.status ++ " " ++ r.textBody))))
    ∧ (stringIncludes (r.contentTypeHeader.getD "") "application/json" = true →
        ∀ e, r.jsonBody = some e →
          (e.success = false →
            cloudflareRequest r =
              .error (.thrown ("Cloudflare API error: " ++ joinErrors e.errors)))
        ∧ (e.success = true → cloudflareRequest r = .ok (.envelope e))) := by
  constructor
  · intro hct
    refine ⟨fun hok => ?_, fun hok => ?_⟩
    · simp [cloudflareRequest, hct, hok]
    · simp [cloudflareRequest, hct, hok]
  · intro hct e hj
    refine ⟨fun hs => ?_, fun hs => ?_⟩
    · simp [cloudflareRequest, hct, hj, hs]
    · simp [cloudflareRequest, hct, hj, hs]

theorem string_append_left_cancel {p a b : String} (h : p ++ a = p ++ b) : a = b := by
  cases p with
  | mk pd =>
    cases a with
    | mk ad =>
      cases b with
      | mk bd =>
        have hd : pd ++ ad = pd ++ bd := congrArg String.data h
        exact congrArg String.mk (List.append_cancel_left hd)

theorem mkApiWorker_ne_of_key_ne {apiBase acct tok c1 c2 : String}
    (h : cacheKey acct c1 ≠ cacheKey acct c2) :
    mkApiWorker apiBase acct tok c1 ≠ mkApiWorker apiBase acct tok c2 := by
  intro he
  apply h
  have hid : "cloudflare-api-" ++ cacheKey acct c1 = "cloudflare-api-" ++ cacheKey acct c2 :=
    congrArg Worker.id he
  exact string_append_left_cancel hid

theorem execStep_first (apiBase acct tok c1 : String) :
    execStep loaderAlwaysOk apiBase c1 acct tok [] =
      some (.ok (mkApiWorker apiBase acct tok c1, tok),
        [(cacheKey acct c1, mkApiWorker apiBase acct tok c1)]) := rfl

theorem execStep_hit (loader : String → String → Except String Worker)
    (apiBase code acct tok : String) (w : Worker) (st : List (String × Worker))
    (h : List.lookup (cacheKey acct code) st = some w) :
    execStep loader apiBase code acct tok st =
      some (.ok (w, tok), eraseKey (cacheKey acct code) st ++ [(cacheKey acct code, w)]) := by
  rw [execStep, getOp, h]

theorem execStep_missAlwaysOk (apiBase code acct tok : String)
    (st : List (String × Worker))
    (hmiss : List.lookup (cacheKey acct code) st = none) :
    execStep loaderAlwaysOk apiBase code acct tok st =
      match setOp 20 (cacheKey acct code) (mkApiWorker apiBase acct tok code) st with
      | none => none
      | some st'' => some (.ok (mkApiWorker apiBase acct tok code, tok), st'') := by
  rw [execStep, getOp, hmiss]
  rfl

/-- C1 (amended): the executor performs no retained-source verification on a
cache hit, so for two consecutive requests (same account and credential) from
an empty cache, equality of the derived key alone decides sandbox reuse:
when the keys collide — in particular for two distinct code strings with
equal `simpleHash` — the second request reuses the sandbox of the first request,
whose definition embeds the code of the first request; when the keys differ the
two requests use distinct sandboxes, each embedding its own code. -/
theorem executorCollisionBehavior (apiBase acct tok c1 c2 : String) :
    (cacheKey acct c1 = cacheKey acct c2 →
      twoRequests apiBase acct tok c1 c2 =
        some (mkApiWorker apiBase acct tok c1, mkApiWorker apiBase acct tok c1))
    ∧ (cacheKey acct c1 ≠ cacheKey acct c2 →
      twoRequests apiBase acct tok c1 c2 =
        some (mkApiWorker apiBase acct tok c1, mkApiWorker apiBase acct tok c2)
      ∧ mkApiWorker apiBase acct tok c1 ≠ mkApiWorker apiBase acct tok c2) := by
  constructor
  · intro hk
    have h2 : execStep loaderAlwaysOk apiBase c2 acct tok
        [(cacheKey acct c1, mkApiWorker apiBase acct tok c1)] =
        some (.ok (mkApiWorker apiBase acct tok c1, tok),
          eraseKey (cacheKey acct c2) [(cacheKey acct c1, mkApiWorker apiBase acct tok c1)]
            ++ [(cacheKey acct c2, mkApiWorker apiBase acct tok c1)]) := by
      apply execStep_hit
      rw [← hk]
      simp [List.lookup]
    rw [twoRequests, execStep_first]
    simp only [h2]
  · intro hk
    have hlk : List.lookup (cacheKey acct c2)
        [(cacheKey acct c1, mkApiWorker apiBase acct tok c1)] = none := by
      have : (cacheKey acct c2 == cacheKey acct c1) = false := by
        simp
        exact fun he => hk he.symm
      simp [List.lookup, this]
    have herase : eraseKey (cacheKey acct c2)
        [(cacheKey acct c1, mkApiWorker apiBase acct tok c1)] =
        [(cacheKey acct c1, mkApiWorker apiBase acct tok c1)] := by
      apply eraseKey_eq_self
      intro p hp
      have hp1 : p = (cacheKey acct c1, mkApiWorker apiBase acct tok c1) := by simpa using hp
      rw [hp1]
      exact hk
    have h2 : execStep loaderAlwaysOk apiBase c2 acct tok
        [(cacheKey acct c1, mkApiWorker apiBase acct tok c1)] =
        some (.ok (mkApiWorker apiBase acct tok c2, tok),
          [(cacheKey acct c1, mkApiWorker apiBase acct tok c1),
           (cacheKey acct c2, mkApiWorker apiBase acct tok c2)]) := by
      rw [execStep_missAlwaysOk apiBase c2 acct tok _ hlk, setOp, herase]
      rfl
    refine ⟨?_, mkApiWorker_ne_of_key_ne hk⟩
    rw [twoRequests, execStep_first]
    simp only [h2]

theorem executorCollisionBehaviorWitness :
    twoRequests "x" "acct" "tok" "Aa" "BB" =
      some (mkApiWorker "x" "acct" "tok" "Aa", mkApiWorker "x" "acct" "tok" "Aa")
    ∧ (twoRequests "x" "acct" "tok" "u" "v" =
        some (mkApiWorker "x" "acct" "tok" "u", mkApiWorker "x" "acct" "tok" "v")
      ∧ mkApiWorker "x" "acct" "tok" "u" ≠ mkApiWorker "x" "acct" "tok" "v") :=
  ⟨(executorCollisionBehavior "x" "acct" "tok" "Aa" "BB").1 (by decide),
   (executorCollisionBehavior "x" "acct" "tok" "u" "v").2 (by decide)⟩

set_option maxRecDepth 8192 in
/-- C1 counterexample: the requests with the distinct code strings `"Aa"` and
`"BB"` (a `simpleHash` collision) resolve to the very same cached sandbox —
the second request is served the sandbox whose definition embeds the code
of `"Aa"`, not of `"BB"` — refuting both the claimed retained-source verification
and the claimed never-shared property for distinct code. -/
theorem collisionReuseCex :
    ("Aa" : String) ≠ "BB"
    ∧ twoRequests "x" "acct" "tok" "Aa" "BB" =
        some (mkApiWorker "x" "acct" "tok" "Aa", mkApiWorker "x" "acct" "tok" "Aa")
    ∧ (mkApiWorker "x" "acct" "tok" "Aa").source = buildWorkerCode "x" "acct" "tok" "Aa"
    ∧ buildWorkerCode "x" "acct" "tok" "Aa" ≠ buildWorkerCode "x" "acct" "tok" "BB" := by
  refine ⟨by decide, ?_, rfl, ?_⟩
  · have hk : cacheKey "acct" "Aa" = cacheKey "acct" "BB" := by decide
    have h2 : execStep loaderAlwaysOk "x" "BB" "acct" "tok"
        [(cacheKey "acct" "Aa", mkApiWorker "x" "acct" "tok" "Aa")] =
        some (.ok (mkApiWorker "x" "acct" "tok" "Aa", "tok"),
          eraseKey (cacheKey "acct" "BB")
              [(cacheKey "acct" "Aa", mkApiWorker "x" "acct" "tok" "Aa")]
            ++ [(cacheKey "acct" "BB", mkApiWorker "x" "acct" "tok" "Aa")]) := by
      apply execStep_hit
      rw [← hk]
      simp [List.lookup]
    rw [twoRequests, execStep_first]
    simp only [h2]
  · intro h
    have hd := congrArg String.data h
    have h1 : eqListTR (buildWorkerCode "x" "acct" "tok" "Aa").data
        (buildWorkerCode "x" "acct" "tok" "BB").data = true := by
      rw [hd]; exact eqListTR_refl _
    have h2 : eqListTR (buildWorkerCode "x" "acct" "tok" "Aa").data
        (buildWorkerCode "x" "acct" "tok" "BB").data = false := rfl
    rw [h1] at h2
    exact Bool.noConfusion h2

/-- C6: the sandbox definition built by `createCodeExecutor` is a function of
the code, account identifier and API base only — for any two credentials it
is character-for-character identical (the credential is never interpolated
into it) — and on every invocation the credential is the argument passed to
`evaluate` (the second component of the request outcome). -/
theorem credentialIndependence :
    (∀ apiBase accountId code t1 t2 : String,
        buildWorkerCode apiBase accountId t1 code = buildWorkerCode apiBase accountId t2 code)
    ∧ (∀ (loader : String → String → Except String Worker)
        (apiBase code accountId apiToken : String) (st : List (String × Worker))
        (r : Worker × String) (st' : List (String × Worker)),
        execStep loader apiBase code accountId apiToken st = some (.ok r, st') →
        r.2 = apiToken) := by
  refine ⟨fun _ _ _ _ _ => rfl, ?_⟩
  intro loader apiBase code accountId apiToken st r st' h
  rw [execStep] at h
  split at h
  · simp only [Option.some.injEq, Prod.mk.injEq, Except.ok.injEq] at h
    exact (congrArg Prod.snd h.1).symm
  · split at h
    · simp at h
    · split at h
      · simp at h
      · simp only [Option.some.injEq, Prod.mk.injEq, Except.ok.injEq] at h
        exact (congrArg Prod.snd h.1).symm

theorem credentialIndependenceWitness :
    buildWorkerCode "b" "a" "t1" "c" = buildWorkerCode "b" "a" "t2" "c"
    ∧ (mkApiWorker "b" "a" "tok" "c", "tok").2 = "tok" :=
  ⟨credentialIndependence.1 "b" "a" "c" "t1" "t2",
   credentialIndependence.2 loaderAlwaysOk "b" "c" "a" "tok" []
     (mkApiWorker "b" "a" "tok" "c", "tok")
     [(cacheKey "a" "c", mkApiWorker "b" "a" "tok" "c")] rfl⟩

/-- C7: when the hosting capability cannot instantiate the sandbox (the
loader fails) on a cache miss, the failure propagates as a fatal error for this
request and the cache is returned unchanged — in particular no entry for the
derived key is written, so a broken sandbox is never cached. -/
theorem constructionFaultNotCached
    (loader : String → String → Except String Worker)
    (apiBase code accountId apiToken : String) (st : List (String × Worker)) (e : String)
    (hmiss : List.lookup (cacheKey accountId code) st = none)
    (hload : loader ("cloudflare-api-" ++ cacheKey accountId code)
        (buildWorkerCode apiBase accountId apiToken code) = .error e) :
    execStep loader apiBase code accountId apiToken st = some (.error e, st) := by
  rw [execStep, getOp, hmiss, hload]

theorem constructionFaultNotCachedWitness :
    execStep (fun _ _ => .error "boom") "b" "c" "a" "t" [] = some (.error "boom", []) :=
  constructionFaultNotCached (fun _ _ => .error "boom") "b" "c" "a" "t" [] "boom" rfl rfl

theorem natDecimalAux_length_le :
    ∀ (fuel n k : Nat), n < fuel → n < 10 ^ k →
      (natDecimalAux fuel n).length ≤ max 1 k := by
  intro fuel
  induction fuel with
  | zero => intro n k h _; omega
  | succ f ih =>
    intro n k hf hk
    rw [natDecimalAux]
    by_cases h10 : n < 10
    · rw [if_pos h10]
      simp only [List.length_cons, List.length_nil]
      omega
    · rw [if_neg h10]
      have hk2 : 2 ≤ k := by
        by_contra hc
        push_neg at hc
        have hle : 10 ^ k ≤ 10 := by
          rcases Nat.lt_succ_iff_lt_or_eq.mp (by omega : k < 2) with h' | h'
          · have hk0 : k = 0 := by omega
            rw [hk0]; norm_num
          · rw [h']; norm_num
        omega
      have hdiv : n / 10 < 10 ^ (k - 1) := by
        rw [Nat.div_lt_iff_lt_mul (by norm_num : 0 < 10)]
        calc n < 10 ^ k := hk
          _ = 10 ^ (k - 1) * 10 := by
              rw [← pow_succ]
              congr 1
              omega
      have hfu : n / 10 < f := by
        have h1 : n / 10 < n := Nat.div_lt_self (by omega) (by norm_num)
        omega
      have hrec := ih (n / 10) (k - 1) hfu hdiv
      simp only [List.length_append, List.length_cons, List.length_nil]
      omega

theorem renderNat_length_le (n : Nat) (h : n < 10 ^ 10) :
    (renderNat n).length ≤ 10 := by
  have := natDecimalAux_length_le (n + 1) n 10 (Nat.lt_succ_self n) h
  have hlen : (renderNat n).length = (natDecimalAux (n + 1) n).length := rfl
  omega

theorem truncationNote_length (n : Nat) :
    (truncationNote n).length = (renderNat n).length + 43 := by
  rw [truncationNote, String.length_append, String.length_append]
  have h1 : ("... [truncated, original size: " : String).length = 31 := rfl
  have h2 : (" characters]" : String).length = 12 := rfl
  rw [h1, h2]
  omega

/-- C8: for a serialized result exceeding the configured budget of 10,000
token-equivalents (40,000 characters at the 4-characters-per-token
heuristic of the repository), `truncateResponse` (modelled from the spec, `src/truncate.ts`
being absent from the snapshot) produces an output of at most the budget, in
token-equivalents as well as in characters, ending in an indicator that
reports the original serialized size.  The second hypothesis bounds the input
by `10^10` characters, comfortably above any string an engine can hold. -/
theorem truncateResponseBound (s : String) (hlong : charBudget < s.length)
    (hjs : s.length < 10 ^ 10) :
    tokenEquivalents (truncateResponse s) ≤ truncationTokenBudget
    ∧ (truncateResponse s).length ≤ charBudget
    ∧ ∃ pre, truncateResponse s = pre ++ truncationNote s.length := by
  have hnote : (truncationNote s.length).length ≤ 53 := by
    rw [truncationNote_length]
    have := renderNat_length_le s.length hjs
    omega
  have hcb : charBudget = 40000 := rfl
  have hlen : (truncateResponse s).length ≤ charBudget := by
    rw [truncateResponse, if_neg (by omega)]
    rw [String.length_append]
    have hmk : (String.mk (s.data.take (charBudget - (truncationNote s.length).length))).length
        = min (charBudget - (truncationNote s.length).length) s.data.length := by
      show (s.data.take (charBudget - (truncationNote s.length).length)).length = _
      exact List.length_take _ _
    rw [hmk]
    have hminle : min (charBudget - (truncationNote s.length).length) s.data.length
        ≤ charBudget - (truncationNote s.length).length := Nat.min_le_left _ _
    omega
  refine ⟨?_, hlen,
    ⟨String.mk (s.data.take (charBudget - (truncationNote s.length).length)), ?_⟩⟩
  · rw [tokenEquivalents]
    calc ((truncateResponse s).length + (charsPerToken - 1)) / charsPerToken
        ≤ (charBudget + (charsPerToken - 1)) / charsPerToken :=
          Nat.div_le_div_right (by omega)
      _ = truncationTokenBudget := by rfl
  · rw [truncateResponse, if_neg (by omega)]

theorem truncateResponseBoundWitness :
    tokenEquivalents (truncateResponse (String.mk (List.replicate 40001 'a')))
      ≤ truncationTokenBudget
    ∧ (truncateResponse (String.mk (List.replicate 40001 'a'))).length ≤ charBudget
    ∧ ∃ pre, truncateResponse (String.mk (List.replicate 40001 'a')) =
        pre ++ truncationNote (String.mk (List.replicate 40001 'a')).length := by
  have hlen : (String.mk (List.replicate 40001 'a')).length = 40001 := by
    show (List.replicate 40001 'a').length = 40001
    exact List.length_replicate _ _
  apply truncateResponseBound
  · show charBudget < (String.mk (List.replicate 40001 'a')).length
    rw [hlen]
    norm_num [charBudget, truncationTokenBudget, charsPerToken]
  · rw [hlen]
    norm_num

theorem cloudflareRequestHandlingWitness :
    cloudflareRequest
        ⟨some "application/json", 200, "",
         some ⟨false, .str "", [⟨1000, "bad auth"⟩], []⟩⟩
      = .error (.thrown ("Cloudflare API error: " ++ joinErrors [⟨1000, "bad auth"⟩]))
    ∧ stringIncludes ("Cloudflare API error: " ++ joinErrors [⟨1000, "bad auth"⟩])
        "1000: bad auth" = true := by
  constructor
  · exact ((cloudflareRequestHandling
      ⟨some "application/json", 200, "",
       some ⟨false, .str "", [⟨1000, "bad auth"⟩], []⟩⟩).2 (by decide) _ rfl).1 rfl
  · decide

end CloudflareMcp
